import Mathlib

/-!
# RethinkDB policy adapter (`rethinkadapter.go`)

A shallow embedding of the adapter and a verification of its contract.

* Go strings are byte sequences; they are embedded as lists of naturals (one per byte).
* The casbin model `map[string]map[string]*Assertion` is embedded as nested association
  lists: a lookup returns the first binding of a key, a `range` loop visits the bindings in
  list order (the order the Go runtime happens to pick).  A Go map is such a list with
  pairwise distinct keys.  Every binding holds a non-nil pointer to an assertion of its own
  (no two bindings share a pointer).
* The backing store is embedded as a function from database and table name to the documents
  of that table in scan order, together with a record of the replies the store gives during
  one adapter call (errors of the individual queries, the keys it generates).
* A call ends either by returning an optional error or by a panic.
-/

namespace RethinkAdapter

/-! ## Data model -/

/-- A Go string: its bytes. -/
abbrev GoString := List Nat

/-- The bytes of an ASCII literal. -/
def ascii (s : String) : GoString := s.toList.map Char.toNat

/-- An error value of the store driver (its message). -/
abbrev Error := GoString

/-- The value a panicking call aborts with. -/
inductive Panic where
  /-- Raised by `panic(err)`. -/
  | error (err : Error)
  /-- Go runtime error: nil pointer dereference. -/
  | nilDereference
  deriving DecidableEq, Repr

/-- How an adapter call ends. -/
inductive Exit where
  /-- The call returns `err` (`none` is Go's `nil`). -/
  | returned (err : Option Error)
  /-- The call panics. -/
  | panicked (p : Panic)
  deriving DecidableEq, Repr

/-- The struct `policy`: one document of the table.  `ID` is encoded as `id,omitempty`,
the other six fields are always encoded. -/
structure policy where
  ID : GoString
  PTYPE : GoString
  V1 : GoString
  V2 : GoString
  V3 : GoString
  V4 : GoString
  V5 : GoString
  deriving DecidableEq, Repr

/-- The casbin struct `model.Assertion`; the adapter reads and writes `Policy` only. -/
structure Assertion where
  Key : GoString
  Value : GoString
  Tokens : List GoString
  Policy : List (List GoString)
  deriving DecidableEq, Repr

/-- A Go `map[string]β` as an association list. -/
abbrev GoMap (β : Type) := List (GoString × β)

/-- The value bound to `k`: Go's `m[k]`, where `none` is the zero value of a missing key. -/
def GoMap.get? {β : Type} (k : GoString) : GoMap β → Option β
  | [] => none
  | (k', v) :: m => if k' = k then some v else GoMap.get? k m

/-- Apply `f` to the value bound to `k` (a write through the pointer stored under `k`). -/
def GoMap.modify {β : Type} (k : GoString) (f : β → β) : GoMap β → GoMap β
  | [] => []
  | (k', v) :: m => if k' = k then (k', f v) :: m else (k', v) :: GoMap.modify k f m

/-- The casbin type `model.AssertionMap`. -/
abbrev AssertionMap := GoMap Assertion

/-- The casbin type `model.Model`. -/
abbrev Model := GoMap AssertionMap

/-- The expression `model[sec]`: the nil (empty) map when `sec` is missing. -/
def Model.sec (model : Model) (sec : GoString) : AssertionMap :=
  (GoMap.get? sec model).getD []

/-- The expression `model[sec][key]`: `none` is the nil pointer. -/
def Model.entry (model : Model) (sec key : GoString) : Option Assertion :=
  GoMap.get? key (model.sec sec)

/-- The assignment `model[sec][key].Policy = append(model[sec][key].Policy, tokens)`
for a non-nil `model[sec][key]`. -/
def Model.appendPolicy (model : Model) (sec key : GoString) (tokens : List GoString) : Model :=
  GoMap.modify sec
    (GoMap.modify key (fun ast => { ast with Policy := ast.Policy ++ [tokens] })) model

/-- The struct `adapter`; `session` is the handle of the store connection (`none` is nil). -/
structure adapter where
  session : Option Nat
  database : GoString
  table : GoString
  deriving DecidableEq, Repr

/-! ## The backing store -/

/-- The documents of one table, in the order a table scan delivers them; every document
carries all fields of the struct `policy`, its key in `ID`. -/
abbrev Table := List policy

/-- The store: the documents of each table of each database. -/
abbrev Store := GoString → GoString → Table

/-- What the store answers during one adapter call: the error (if any) of each kind of
query, where the row stream of the table scan breaks, and the keys it generates. -/
structure Replies where
  /-- Error of the create-database-if-absent query. -/
  createDatabase : Option Error
  /-- Error of the create-table-if-absent query. -/
  createTable : Option Error
  /-- Error of a delete query (full table or filtered). -/
  delete : Option Error
  /-- Error of an insert query. -/
  insert : Option Error
  /-- Error of starting the table scan. -/
  run : Option Error
  /-- The row stream breaks with the error after delivering this many rows. -/
  stream : Option (Nat × Error)
  /-- The key the store generates for the document at a position of the table. -/
  newId : Nat → GoString

/-- A row stream (driver type `Cursor`): `Next` delivers `rows` one by one and then returns
false; `err` is the error that ended the stream early, which only `Err()` reports. -/
structure Cursor where
  rows : List policy
  err : Option Error
  deriving DecidableEq, Repr

/-- The documents of the table the adapter points at. -/
def Store.rows (st : Store) (a : adapter) : Table := st a.database a.table

/-- Replace the documents of the table the adapter points at. -/
def Store.put (st : Store) (a : adapter) (rows : Table) : Store :=
  fun d t => if d = a.database ∧ t = a.table then rows else st d t

/-- The documents as stored by an insert: a document without `id` gets a generated key,
`n` being the position of the first one. -/
def Replies.stored (rep : Replies) : Nat → List policy → List policy
  | _, [] => []
  | n, line :: lines =>
    (if line.ID = [] then { line with ID := rep.newId n } else line)
      :: Replies.stored rep (n + 1) lines

/-- The row stream of a scan over `tbl`. -/
def Replies.scan (rep : Replies) (tbl : Table) : Cursor :=
  match rep.stream with
  | some (n, e) => { rows := tbl.take n, err := some e }
  | none => { rows := tbl, err := none }

/-- Store query `Filter(selector)` with a `policy` struct as selector: a document matches
when it agrees with every encoded field of the selector.  The tag `id,omitempty` leaves an
empty `ID` out; `ptype` and `v1` to `v5` are encoded even when empty. -/
def filterMatches (selector row : policy) : Bool :=
  (selector.ID = [] ∨ row.ID = selector.ID) ∧ row.PTYPE = selector.PTYPE ∧
  row.V1 = selector.V1 ∧ row.V2 = selector.V2 ∧ row.V3 = selector.V3 ∧
  row.V4 = selector.V4 ∧ row.V5 = selector.V5

/-! ## The adapter -/

/-- Method `GetDatabaseName`. -/
def adapter.GetDatabaseName (a : adapter) : GoString := a.database

/-- Method `GetTableName`. -/
def adapter.GetTableName (a : adapter) : GoString := a.database

/-- Method `SetDatabaseName`. -/
def adapter.SetDatabaseName (a : adapter) (s : GoString) : adapter := { a with database := s }

/-- Method `SetTableName`. -/
def adapter.SetTableName (a : adapter) (s : GoString) : adapter := { a with table := s }

/-- Method `close`. -/
def adapter.close (a : adapter) : adapter := { a with session := none }

/-- Function `finalizer`. -/
def finalizer (a : adapter) : adapter := a.close

/-- Method `createDatabase`. -/
def adapter.createDatabase (_a : adapter) (rep : Replies) : Option Error :=
  match rep.createDatabase with
  | some err => some err
  | none => none

/-- Method `createTable`. -/
def adapter.createTable (_a : adapter) (rep : Replies) : Option Error :=
  match rep.createTable with
  | some err => some err
  | none => none

/-- Method `open`: `some p` when it panics. -/
def adapter.open_ (a : adapter) (rep : Replies) : Option Panic :=
  match a.createDatabase rep with
  | some err => some (Panic.error err)
  | none =>
    match a.createTable rep with
    | some err => some (Panic.error err)
    | none => none

/-- Function `NewAdapter`: the adapter, or the panic of `open`. -/
def NewAdapter (rep : Replies) (Sessionvar : Nat) (database table : GoString) :
    Except Panic adapter :=
  let a : adapter := { session := some Sessionvar, database := database, table := table }
  match a.open_ rep with
  | some p => Except.error p
  | none => Except.ok a

/-- Method `dropTable`. -/
def adapter.dropTable (a : adapter) (rep : Replies) (st : Store) : Store × Exit :=
  match rep.delete with
  | some err => (st, Exit.panicked (Panic.error err))
  | none => (st.put a [], Exit.returned none)

/-- Function `loadPolicyLine`: the model after the call, or the panic. -/
def loadPolicyLine (line : policy) (model : Model) : Except Panic Model :=
  if line.PTYPE = [] then Except.ok model
  else
    let key := line.PTYPE
    let sec := key.take 1
    let tokens : List GoString := []
    let tokens := if line.V1 ≠ [] then tokens ++ [line.V1] else tokens
    let tokens := if line.V2 ≠ [] then tokens ++ [line.V2] else tokens
    let tokens := if line.V3 ≠ [] then tokens ++ [line.V3] else tokens
    let tokens := if line.V4 ≠ [] then tokens ++ [line.V4] else tokens
    let tokens := if line.V5 ≠ [] then tokens ++ [line.V5] else tokens
    match model.entry sec key with
    | none => Except.error Panic.nilDereference
    | some _ => Except.ok (model.appendPolicy sec key tokens)

/-- The loop `for rows.Next(&output) { loadPolicyLine(output, model) }` over the rows the
stream delivers, followed by `return nil`. -/
def loadRows : List policy → Model → Model × Exit
  | [], model => (model, Exit.returned none)
  | output :: rest, model =>
    match loadPolicyLine output model with
    | Except.error p => (model, Exit.panicked p)
    | Except.ok model => loadRows rest model

/-- Method `LoadPolicy`: the model after the call and how the call ends. -/
def adapter.LoadPolicy (a : adapter) (rep : Replies) (st : Store) (model : Model) :
    Model × Exit :=
  match a.open_ rep with
  | some p => (model, Exit.panicked p)
  | none =>
    match rep.run with
    | some errn => (model, Exit.returned (some errn))
    | none =>
      let rows := rep.scan (st.rows a)
      loadRows rows.rows model

/-- One pass of the loop body of `writeTableLine`: the `switch i` on index `i` with
`v = rule[i]`. -/
def writeTableLine.step (items : policy) (iv : Nat × GoString) : policy :=
  match iv.1 with
  | 0 => { items with V1 := iv.2 }
  | 1 => { items with V2 := iv.2 }
  | 2 => { items with V3 := iv.2 }
  | 3 => { items with V4 := iv.2 }
  | 4 => { items with V5 := iv.2 }
  | _ => items

/-- Method `writeTableLine` (its receiver is not used). -/
def writeTableLine (ptype : GoString) (rule : List GoString) : policy :=
  let items : policy :=
    { ID := [], PTYPE := ptype, V1 := [], V2 := [], V3 := [], V4 := [], V5 := [] }
  rule.enum.foldl writeTableLine.step items

/-- The loops of `SavePolicy` over one section: every rule of every policy type of the
section is turned into a row and appended to `lines`. -/
def SavePolicy.collect (section_ : AssertionMap) (lines : List policy) : List policy :=
  section_.foldl
    (fun lines kv => kv.2.Policy.foldl (fun lines rule => lines ++ [writeTableLine kv.1 rule]) lines)
    lines

/-- Method `SavePolicy`: the store after the call and how the call ends. -/
def adapter.SavePolicy (a : adapter) (rep : Replies) (st : Store) (model : Model) :
    Store × Exit :=
  match a.open_ rep with
  | some p => (st, Exit.panicked p)
  | none =>
    match a.dropTable rep st with
    | (st, Exit.panicked p) => (st, Exit.panicked p)
    | (st, Exit.returned _) =>
      let lines : List policy := []
      let lines := SavePolicy.collect (model.sec (ascii "p")) lines
      let lines := SavePolicy.collect (model.sec (ascii "g")) lines
      match rep.insert with
      | some err => (st, Exit.returned (some err))
      | none =>
        (st.put a (st.rows a ++ rep.stored (st.rows a).length lines), Exit.returned none)

/-- Method `AddPolicy`. -/
def adapter.AddPolicy (a : adapter) (rep : Replies) (st : Store)
    (_sec : GoString) (PTYPE : GoString) (policys : List GoString) : Store × Exit :=
  let line := writeTableLine PTYPE policys
  match rep.insert with
  | some err => (st, Exit.returned (some err))
  | none => (st.put a (st.rows a ++ rep.stored (st.rows a).length [line]), Exit.returned none)

/-- Method `RemovePolicy`. -/
def adapter.RemovePolicy (a : adapter) (rep : Replies) (st : Store)
    (_sec : GoString) (PTYPE : GoString) (policys : List GoString) : Store × Exit :=
  let line := writeTableLine PTYPE policys
  match rep.delete with
  | some err => (st, Exit.returned (some err))
  | none => (st.put a ((st.rows a).filter (fun row => !filterMatches line row)), Exit.returned none)

/-- Method `RemoveFilteredPolicy`; `fieldValues[k]` is read only for `0 ≤ k < len`, and no
sum or difference that is evaluated leaves the range of Go's `int`. -/
def adapter.RemoveFilteredPolicy (a : adapter) (rep : Replies) (st : Store)
    (_sec : GoString) (ptype : GoString) (fieldIndex : Int) (fieldValues : List GoString) :
    Store × Exit :=
  let len : Int := fieldValues.length
  let selector : policy :=
    { ID := [], PTYPE := [], V1 := [], V2 := [], V3 := [], V4 := [], V5 := [] }
  let selector := { selector with PTYPE := ptype }
  let selector :=
    if fieldIndex ≤ 0 ∧ 0 < fieldIndex + len then
      { selector with V1 := fieldValues.getD (0 - fieldIndex).toNat [] } else selector
  let selector :=
    if fieldIndex ≤ 1 ∧ 1 < fieldIndex + len then
      { selector with V2 := fieldValues.getD (1 - fieldIndex).toNat [] } else selector
  let selector :=
    if fieldIndex ≤ 2 ∧ 2 < fieldIndex + len then
      { selector with V3 := fieldValues.getD (2 - fieldIndex).toNat [] } else selector
  let selector :=
    if fieldIndex ≤ 3 ∧ 3 < fieldIndex + len then
      { selector with V4 := fieldValues.getD (3 - fieldIndex).toNat [] } else selector
  let selector :=
    if fieldIndex ≤ 4 ∧ 4 < fieldIndex + len then
      { selector with V5 := fieldValues.getD (4 - fieldIndex).toNat [] } else selector
  match rep.delete with
  | some err => (st, Exit.panicked (Panic.error err))
  | none =>
    (st.put a ((st.rows a).filter (fun row => !filterMatches selector row)), Exit.returned none)

/-! ## Vocabulary of the contract -/

/-- The store reports no error during the call. -/
def Replies.noError (rep : Replies) : Prop :=
  rep.createDatabase = none ∧ rep.createTable = none ∧ rep.delete = none ∧
  rep.insert = none ∧ rep.run = none ∧ rep.stream = none

/-- The row without its store key. -/
def policy.eraseID (row : policy) : policy := { row with ID := [] }

/-- The field at position `i` (position 0 is the first of the five fields). -/
def policy.field (row : policy) : Nat → GoString
  | 0 => row.V1
  | 1 => row.V2
  | 2 => row.V3
  | 3 => row.V4
  | 4 => row.V5
  | _ => []

/-- The non-empty fields of a row, in field order. -/
def policy.tokens (row : policy) : List GoString :=
  [row.V1, row.V2, row.V3, row.V4, row.V5].filter (fun v => v ≠ [])

/-- The rules a model holds for policy type `key` of section `sec` (none when the type
is missing). -/
def Model.rules (model : Model) (sec key : GoString) : List (List GoString) :=
  match model.entry sec key with
  | some ast => ast.Policy
  | none => []

/-- The rules that the rows `rows`, taken in order, contribute to policy type `key` of
section `sec`: one token list per row whose type is `key`, is not empty and starts with
`sec`. -/
def loadedRules (rows : List policy) (sec key : GoString) : List (List GoString) :=
  (rows.filter (fun row => row.PTYPE ≠ [] ∧ row.PTYPE.take 1 = sec ∧ row.PTYPE = key)).map
    policy.tokens

/-- One row per rule of every policy type of a section, built by `writeTableLine`. -/
def rowsOf (section_ : AssertionMap) : List policy :=
  section_.flatMap (fun kv => kv.2.Policy.map (writeTableLine kv.1))

/-- The window filter as the contract words it: the type is `ptype` and, for every
position `i` in `[0,5)` with `fieldIndex ≤ i < fieldIndex + len(fieldValues)`, the field at
position `i` equals `fieldValues[i - fieldIndex]`; other positions are unconstrained. -/
def windowMatches (ptype : GoString) (fieldIndex : Int) (fieldValues : List GoString)
    (row : policy) : Bool :=
  row.PTYPE = ptype ∧
  (List.range 5).all (fun i =>
    decide ((fieldIndex ≤ (i : Int) ∧ (i : Int) < fieldIndex + (fieldValues.length : Int)) →
      row.field i = fieldValues.getD ((i : Int) - fieldIndex).toNat []))

/-! ## Sample values -/

/-- Replies of a store that reports no error and numbers its keys. -/
def quietReplies : Replies :=
  { createDatabase := none, createTable := none, delete := none, insert := none,
    run := none, stream := none, newId := fun n => [n] }

/-- An adapter for table `tbl` of database `db`. -/
def sampleAdapter : adapter := { session := some 0, database := ascii "db", table := ascii "tbl" }

/-- A store all of whose tables are empty. -/
def emptyStore : Store := fun _ _ => []

/-- A store all of whose tables hold the given documents. -/
def constStore (rows : Table) : Store := fun _ _ => rows

/-- An assertion for key `key` holding the given rules. -/
def sampleAssertion (key : GoString) (rules : List (List GoString)) : Assertion :=
  { Key := key, Value := [], Tokens := [], Policy := rules }

/-- A model with the single policy type `p` of section `p`, holding the given rules. -/
def sampleModel (rules : List (List GoString)) : Model :=
  [(ascii "p", [(ascii "p", sampleAssertion (ascii "p") rules)])]

/-- A stored row of type `p` with key `k` and the given first three fields. -/
def sampleRow (k : Nat) (v1 v2 v3 : String) : policy :=
  { ID := [k], PTYPE := ascii "p", V1 := ascii v1, V2 := ascii v2, V3 := ascii v3,
    V4 := [], V5 := [] }

/-! ## Row building -/

theorem writeTableLine.step_ge (items : policy) (n : Nat) (v : GoString) (h : 5 ≤ n) :
    writeTableLine.step items (n, v) = items := by
  obtain ⟨k, rfl⟩ : ∃ k, n = k + 5 := ⟨n - 5, by omega⟩
  rfl

theorem writeTableLine.foldl_ge (l : List GoString) :
    ∀ (n : Nat) (items : policy), 5 ≤ n →
      (l.enumFrom n).foldl writeTableLine.step items = items := by
  induction l with
  | nil => intro n items _; rfl
  | cons v l ih =>
    intro n items h
    simp only [List.enumFrom, List.foldl_cons]
    rw [writeTableLine.step_ge items n v h]
    exact ih (n + 1) items (by omega)

/-- Closed form of the row built by `writeTableLine`. -/
theorem writeTableLine_eq (t : GoString) (f : List GoString) :
    writeTableLine t f =
      { ID := [], PTYPE := t, V1 := f.getD 0 [], V2 := f.getD 1 [], V3 := f.getD 2 [],
        V4 := f.getD 3 [], V5 := f.getD 4 [] } := by
  unfold writeTableLine
  match f with
  | [] => rfl
  | [_] => rfl
  | [_, _] => rfl
  | [_, _, _] => rfl
  | [_, _, _, _] => rfl
  | v1 :: v2 :: v3 :: v4 :: v5 :: rest =>
    simp only [List.enum, List.enumFrom, List.foldl_cons]
    rw [writeTableLine.foldl_ge rest 5 _ (le_refl 5)]
    rfl

theorem writeTableLine_PTYPE (t : GoString) (f : List GoString) :
    (writeTableLine t f).PTYPE = t := by
  rw [writeTableLine_eq]

theorem getD_take_five (f : List GoString) (i : Nat) (h : i < 5) :
    (f.take 5).getD i [] = f.getD i [] := by
  simp [List.getD, List.getElem?_take, h]


/-! ## Go maps -/

theorem GoMap.get?_modify {β : Type} (k k' : GoString) (f : β → β) (m : GoMap β) :
    GoMap.get? k' (GoMap.modify k f m) =
      if k' = k then (GoMap.get? k m).map f else GoMap.get? k' m := by
  induction m with
  | nil => simp [GoMap.modify, GoMap.get?]
  | cons kv m ih =>
    obtain ⟨k0, v⟩ := kv
    by_cases h0 : k0 = k
    · subst h0
      by_cases h1 : k' = k0
      · subst h1; simp [GoMap.modify, GoMap.get?]
      · have h2 : ¬ k0 = k' := fun h => h1 h.symm
        simp [GoMap.modify, GoMap.get?, h1, h2]
    · by_cases h1 : k' = k
      · subst h1
        simp [GoMap.modify, GoMap.get?, h0, ih]
      · by_cases h2 : k0 = k'
        · simp [GoMap.modify, GoMap.get?, h0, h1, h2]
        · simp [GoMap.modify, GoMap.get?, h0, h1, h2, ih]

theorem GoMap.mem_of_get? {β : Type} (k : GoString) (v : β) (m : GoMap β)
    (h : GoMap.get? k m = some v) : (k, v) ∈ m := by
  induction m with
  | nil => simp [GoMap.get?] at h
  | cons kv m ih =>
    obtain ⟨k0, v0⟩ := kv
    by_cases h0 : k0 = k
    · subst h0
      simp [GoMap.get?] at h
      subst h
      exact List.mem_cons_self _ _
    · simp [GoMap.get?, h0] at h
      exact List.mem_cons_of_mem _ (ih h)

theorem Model.mem_sec (model : Model) (s : GoString) (e : GoString × Assertion)
    (h : e ∈ model.sec s) : ∃ kv ∈ model, kv.1 = s ∧ e ∈ kv.2 := by
  unfold Model.sec at h
  cases hg : GoMap.get? s model with
  | none => simp [hg] at h
  | some am =>
    simp [hg] at h
    exact ⟨(s, am), GoMap.mem_of_get? s am model hg, rfl, h⟩

theorem Model.entry_appendPolicy (model : Model) (sec key s t : GoString)
    (tokens : List GoString) :
    (model.appendPolicy sec key tokens).entry s t =
      if s = sec ∧ t = key then
        (model.entry s t).map (fun ast => { ast with Policy := ast.Policy ++ [tokens] })
      else model.entry s t := by
  unfold Model.entry Model.sec Model.appendPolicy
  rw [GoMap.get?_modify]
  by_cases hs : s = sec
  · subst hs
    cases hg : GoMap.get? s model with
    | none => by_cases ht : t = key <;> simp [ht, GoMap.get?]
    | some am =>
      simp only [if_true, Option.map_some', Option.getD_some, true_and]
      rw [GoMap.get?_modify]
      by_cases ht : t = key
      · subst ht; simp
      · simp [ht]
  · simp [hs]

/-! ## The store -/

theorem Store.rows_put (st : Store) (a : adapter) (rows : Table) :
    (st.put a rows).rows a = rows := by
  simp [Store.rows, Store.put]

theorem Store.put_put (st : Store) (a : adapter) (rows rows' : Table) :
    (st.put a rows).put a rows' = st.put a rows' := by
  funext d t
  simp only [Store.put]
  split <;> rfl

theorem Replies.stored_eraseID (rep : Replies) (lines : List policy) :
    ∀ n, (rep.stored n lines).map policy.eraseID = lines.map policy.eraseID := by
  induction lines with
  | nil => intro n; rfl
  | cons line lines ih =>
    intro n
    simp only [Replies.stored, List.map_cons, ih]
    congr 1
    split <;> rfl

/-! ## Loading -/

/-- Closed form of `loadPolicyLine`: the tokens it collects are the non-empty fields. -/
theorem loadPolicyLine_eq (line : policy) (model : Model) :
    loadPolicyLine line model =
      if line.PTYPE = [] then Except.ok model
      else
        match model.entry (line.PTYPE.take 1) line.PTYPE with
        | none => Except.error Panic.nilDereference
        | some _ =>
          Except.ok (model.appendPolicy (line.PTYPE.take 1) line.PTYPE line.tokens) := by
  unfold loadPolicyLine policy.tokens
  by_cases h : line.PTYPE = []
  · simp [h]
  · simp only [h, if_false]
    by_cases h1 : line.V1 = [] <;> by_cases h2 : line.V2 = [] <;> by_cases h3 : line.V3 = [] <;>
      by_cases h4 : line.V4 = [] <;> by_cases h5 : line.V5 = [] <;>
      simp [h1, h2, h3, h4, h5, List.filter]

theorem loadedRules_nil (s t : GoString) : loadedRules [] s t = [] := rfl

theorem loadedRules_cons (row : policy) (rows : List policy) (s t : GoString) :
    loadedRules (row :: rows) s t =
      (if row.PTYPE ≠ [] ∧ row.PTYPE.take 1 = s ∧ row.PTYPE = t then [row.tokens] else [])
        ++ loadedRules rows s t := by
  unfold loadedRules
  by_cases h : row.PTYPE ≠ [] ∧ row.PTYPE.take 1 = s ∧ row.PTYPE = t
  · rw [List.filter_cons_of_pos (by simpa using h), if_pos h]
    rfl
  · rw [List.filter_cons_of_neg (by simpa using h), if_neg h]
    rfl

theorem loadedRules_append (rows rows' : List policy) (s t : GoString) :
    loadedRules (rows ++ rows') s t = loadedRules rows s t ++ loadedRules rows' s t := by
  simp [loadedRules]

theorem loadedRules_eraseID (rows : List policy) (s t : GoString) :
    loadedRules (rows.map policy.eraseID) s t = loadedRules rows s t := by
  induction rows with
  | nil => rfl
  | cons row rows ih =>
    rw [List.map_cons, loadedRules_cons, loadedRules_cons, ih]
    rfl

/-- The loop of `LoadPolicy` over rows whose policy types all have an entry: it ends
normally and appends to every entry the rules its rows contribute, in order. -/
theorem loadRows_spec (rows : List policy) :
    ∀ model : Model,
      (∀ row ∈ rows, row.PTYPE ≠ [] →
        (model.entry (row.PTYPE.take 1) row.PTYPE).isSome = true) →
      (loadRows rows model).2 = Exit.returned none ∧
      ∀ s t, (loadRows rows model).1.entry s t =
        (model.entry s t).map
          (fun ast => { ast with Policy := ast.Policy ++ loadedRules rows s t }) := by
  induction rows with
  | nil =>
    intro model _
    refine ⟨rfl, fun s t => ?_⟩
    cases h : model.entry s t <;> simp [loadRows, loadedRules_nil, h]
  | cons row rows ih =>
    intro model hentry
    have hrest : ∀ model' : Model,
        (∀ s t, (model'.entry s t).isSome = (model.entry s t).isSome) →
        ∀ r ∈ rows, r.PTYPE ≠ [] → (model'.entry (r.PTYPE.take 1) r.PTYPE).isSome = true := by
      intro model' hsame r hr hne
      rw [hsame]
      exact hentry r (List.mem_cons_of_mem _ hr) hne
    by_cases hp : row.PTYPE = []
    · have hstep : loadRows (row :: rows) model = loadRows rows model := by
        simp [loadRows, loadPolicyLine_eq, hp]
      rw [hstep]
      obtain ⟨h1, h2⟩ := ih model (hrest model (fun _ _ => rfl))
      refine ⟨h1, fun s t => ?_⟩
      rw [h2 s t, loadedRules_cons]
      simp [hp]
    · have hsome := hentry row (List.mem_cons_self _ _) hp
      obtain ⟨ast0, hast0⟩ := Option.isSome_iff_exists.mp hsome
      have hstep : loadRows (row :: rows) model =
          loadRows rows (model.appendPolicy (row.PTYPE.take 1) row.PTYPE row.tokens) := by
        simp [loadRows, loadPolicyLine_eq, hp, hast0]
      rw [hstep]
      have hsame : ∀ s t,
          ((model.appendPolicy (row.PTYPE.take 1) row.PTYPE row.tokens).entry s t).isSome =
            (model.entry s t).isSome := by
        intro s t
        rw [Model.entry_appendPolicy]
        split <;> simp
      obtain ⟨h1, h2⟩ := ih _ (hrest _ hsame)
      refine ⟨h1, fun s t => ?_⟩
      rw [h2 s t, Model.entry_appendPolicy, loadedRules_cons]
      by_cases hc : s = row.PTYPE.take 1 ∧ t = row.PTYPE
      · obtain ⟨hs, ht⟩ := hc
        subst hs; subst ht
        cases he : model.entry (row.PTYPE.take 1) row.PTYPE <;> simp [hp]
      · have hc' : ¬ (row.PTYPE ≠ [] ∧ row.PTYPE.take 1 = s ∧ row.PTYPE = t) := by
          rintro ⟨_, h1, h2⟩
          exact hc ⟨h1.symm, h2.symm⟩
        rw [if_neg hc, if_neg hc']
        simp


/-! ## Saving -/

theorem SavePolicy.collect_rules (ptype : GoString) (rules : List (List GoString)) :
    ∀ lines : List policy,
      rules.foldl (fun lines rule => lines ++ [writeTableLine ptype rule]) lines =
        lines ++ rules.map (writeTableLine ptype) := by
  induction rules with
  | nil => intro lines; simp
  | cons rule rules ih => intro lines; simp [ih]

theorem SavePolicy.collect_eq (am : AssertionMap) :
    ∀ lines : List policy, SavePolicy.collect am lines = lines ++ rowsOf am := by
  induction am with
  | nil => intro lines; simp [SavePolicy.collect, rowsOf]
  | cons kv am ih =>
    intro lines
    have h := ih (lines ++ kv.2.Policy.map (writeTableLine kv.1))
    simp only [SavePolicy.collect, List.foldl_cons, SavePolicy.collect_rules] at h ⊢
    rw [h]
    simp [rowsOf]

theorem adapter.open_ok (a : adapter) (rep : Replies)
    (hdb : rep.createDatabase = none) (htb : rep.createTable = none) : a.open_ rep = none := by
  simp [adapter.open_, adapter.createDatabase, adapter.createTable, hdb, htb]

/-- Closed form of `SavePolicy` when the store reports no error. -/
theorem adapter.SavePolicy_ok (a : adapter) (rep : Replies) (st : Store) (model : Model)
    (hdb : rep.createDatabase = none) (htb : rep.createTable = none)
    (hdel : rep.delete = none) (hins : rep.insert = none) :
    a.SavePolicy rep st model =
      (st.put a (rep.stored 0 (rowsOf (model.sec (ascii "p")) ++ rowsOf (model.sec (ascii "g")))),
        Exit.returned none) := by
  unfold adapter.SavePolicy
  rw [adapter.open_ok a rep hdb htb]
  simp only [adapter.dropTable, hdel, hins, Store.rows_put, Store.put_put,
    SavePolicy.collect_eq, List.nil_append, List.length_nil]

theorem rowsOf_mem (am : AssertionMap) (row : policy) (h : row ∈ rowsOf am) :
    ∃ e ∈ am, ∃ rule ∈ e.2.Policy, row = writeTableLine e.1 rule := by
  simp only [rowsOf, List.mem_flatMap, List.mem_map] at h
  obtain ⟨e, he, rule, hr, rfl⟩ := h
  exact ⟨e, he, rule, hr, rfl⟩

/-- The rows of one policy type among the rows of a section with distinct keys. -/
theorem rowsOf_filter (am : AssertionMap) (t : GoString) (hk : (am.map Prod.fst).Nodup) :
    (rowsOf am).filter (fun row => row.PTYPE = t) =
      (((GoMap.get? t am).map Assertion.Policy).getD []).map (writeTableLine t) := by
  induction am with
  | nil => simp [rowsOf, GoMap.get?]
  | cons kv am ih =>
    obtain ⟨k, ast⟩ := kv
    simp only [List.map_cons, List.nodup_cons] at hk
    have hcons : rowsOf ((k, ast) :: am) = ast.Policy.map (writeTableLine k) ++ rowsOf am := by
      simp [rowsOf]
    rw [hcons, List.filter_append]
    by_cases h : k = t
    · subst h
      have h1 : (ast.Policy.map (writeTableLine k)).filter (fun row => row.PTYPE = k) =
          ast.Policy.map (writeTableLine k) := by
        apply List.filter_eq_self.mpr
        intro row hrow
        obtain ⟨rule, _, rfl⟩ := List.mem_map.mp hrow
        simp [writeTableLine_PTYPE]
      have h2 : (rowsOf am).filter (fun row => row.PTYPE = k) = [] := by
        apply List.filter_eq_nil_iff.mpr
        intro row hrow
        obtain ⟨e, he, rule, _, rfl⟩ := rowsOf_mem am row hrow
        have hne : e.1 ≠ k := by
          intro heq
          exact hk.1 (heq ▸ List.mem_map.mpr ⟨e, he, rfl⟩)
        simp [writeTableLine_PTYPE, hne]
      rw [h1, h2]
      simp [GoMap.get?]
    · have h1 : (ast.Policy.map (writeTableLine k)).filter (fun row => row.PTYPE = t) = [] := by
        apply List.filter_eq_nil_iff.mpr
        intro row hrow
        obtain ⟨rule, _, rfl⟩ := List.mem_map.mp hrow
        simp [writeTableLine_PTYPE, h]
      rw [h1, ih hk.2]
      simp [GoMap.get?, h]

/-- A rule of at most five non-empty tokens is read back from its row unchanged. -/
theorem tokens_writeTableLine (t : GoString) (rule : List GoString)
    (hlen : rule.length ≤ 5) (hne : ∀ tok ∈ rule, tok ≠ []) :
    (writeTableLine t rule).tokens = rule := by
  rw [writeTableLine_eq]
  match rule, hlen, hne with
  | [], _, _ => rfl
  | [a], _, hne =>
    have ha := hne a (by simp)
    simp [policy.tokens, List.filter, ha]
  | [a, b], _, hne =>
    have ha := hne a (by simp)
    have hb := hne b (by simp)
    simp [policy.tokens, List.filter, ha, hb]
  | [a, b, c], _, hne =>
    have ha := hne a (by simp)
    have hb := hne b (by simp)
    have hc := hne c (by simp)
    simp [policy.tokens, List.filter, ha, hb, hc]
  | [a, b, c, d], _, hne =>
    have ha := hne a (by simp)
    have hb := hne b (by simp)
    have hc := hne c (by simp)
    have hd := hne d (by simp)
    simp [policy.tokens, List.filter, ha, hb, hc, hd]
  | [a, b, c, d, e], _, hne =>
    have ha := hne a (by simp)
    have hb := hne b (by simp)
    have hc := hne c (by simp)
    have hd := hne d (by simp)
    have he := hne e (by simp)
    simp [policy.tokens, List.filter, ha, hb, hc, hd, he]
  | _ :: _ :: _ :: _ :: _ :: _ :: _, hlen, _ =>
    simp at hlen


theorem rowsOf_eraseID (am : AssertionMap) : (rowsOf am).map policy.eraseID = rowsOf am := by
  have h : ∀ row ∈ rowsOf am, policy.eraseID row = id row := by
    intro row hrow
    obtain ⟨e, _, rule, _, rfl⟩ := rowsOf_mem am row hrow
    rw [writeTableLine_eq]
    rfl
  rw [List.map_congr_left h, List.map_id]

theorem rowsOf_eq_nil (am : AssertionMap) (h : ∀ e ∈ am, e.2.Policy = []) : rowsOf am = [] := by
  cases hr : rowsOf am with
  | nil => rfl
  | cons row rows =>
    have hmem : row ∈ rowsOf am := by rw [hr]; exact List.mem_cons_self _ _
    obtain ⟨e, he, rule, hrule, _⟩ := rowsOf_mem am row hmem
    rw [h e he] at hrule
    simp at hrule

theorem rowsOf_sec_eq_nil (model : Model) (s : GoString)
    (h : ∀ kv ∈ model, ∀ e ∈ kv.2, e.2.Policy = []) : rowsOf (model.sec s) = [] := by
  apply rowsOf_eq_nil
  intro e he
  obtain ⟨kv, hkv, _, hmem⟩ := Model.mem_sec model s e he
  exact h kv hkv e hmem

theorem filterMatches_writeTableLine (t : GoString) (f : List GoString) (row : policy) :
    filterMatches (writeTableLine t f) row = decide (row.eraseID = writeTableLine t f) := by
  rw [writeTableLine_eq]
  obtain ⟨id, ty, v1, v2, v3, v4, v5⟩ := row
  simp [filterMatches, policy.eraseID]

theorem eraseID_eq_writeTableLine_iff (t : GoString) (f : List GoString) (row : policy) :
    row.eraseID = writeTableLine t f ↔
      (row.PTYPE = t ∧ ∀ i : Nat, i < 5 → row.field i = f.getD i []) := by
  rw [writeTableLine_eq]
  obtain ⟨id, ty, v1, v2, v3, v4, v5⟩ := row
  constructor
  · intro h
    simp only [policy.eraseID, policy.mk.injEq, true_and] at h
    obtain ⟨h0, h1, h2, h3, h4, h5⟩ := h
    refine ⟨h0, fun i hi => ?_⟩
    match i, hi with
    | 0, _ => exact h1
    | 1, _ => exact h2
    | 2, _ => exact h3
    | 3, _ => exact h4
    | 4, _ => exact h5
  · rintro ⟨h0, h⟩
    have h1 := h 0 (by decide)
    have h2 := h 1 (by decide)
    have h3 := h 2 (by decide)
    have h4 := h 3 (by decide)
    have h5 := h 4 (by decide)
    simp only [policy.field] at h0 h1 h2 h3 h4 h5
    simp [policy.eraseID, h0, h1, h2, h3, h4, h5]

theorem loadRows_nil_model (rows : List policy) :
    ((∀ row ∈ rows, row.PTYPE = []) → loadRows rows [] = ([], Exit.returned none)) ∧
    ((∃ row ∈ rows, row.PTYPE ≠ []) →
      loadRows rows [] = ([], Exit.panicked Panic.nilDereference)) := by
  induction rows with
  | nil => exact ⟨fun _ => rfl, fun h => by simp at h⟩
  | cons row rows ih =>
    by_cases hp : row.PTYPE = []
    · have hstep : loadRows (row :: rows) [] = loadRows rows [] := by
        simp [loadRows, loadPolicyLine_eq, hp]
      rw [hstep]
      constructor
      · intro h
        exact ih.1 (fun r hr => h r (List.mem_cons_of_mem _ hr))
      · rintro ⟨r, hr, hne⟩
        rcases List.mem_cons.mp hr with h | h
        · exact absurd (h ▸ hp) hne
        · exact ih.2 ⟨r, h, hne⟩
    · have hstep : loadRows (row :: rows) [] = ([], Exit.panicked Panic.nilDereference) := by
        simp [loadRows, loadPolicyLine_eq, hp, Model.entry, Model.sec, GoMap.get?]
      rw [hstep]
      constructor
      · intro h
        exact absurd (h row (List.mem_cons_self _ _)) hp
      · intro _
        rfl

theorem Model.rules_eq (model : Model) (s t : GoString) :
    model.rules s t = ((GoMap.get? t (model.sec s)).map Assertion.Policy).getD [] := by
  unfold Model.rules Model.entry
  cases GoMap.get? t (model.sec s) <;> rfl

theorem Model.sec_nodup (model : Model) (s : GoString)
    (hkeys : ∀ kv ∈ model, (kv.2.map Prod.fst).Nodup) :
    ((model.sec s).map Prod.fst).Nodup := by
  unfold Model.sec
  cases hg : GoMap.get? s model with
  | none => simp
  | some am => exact hkeys (s, am) (GoMap.mem_of_get? s am model hg)

/-- The rules read back from the rows of one section whose policy types start with the
section key and whose rules fit the five fields. -/
theorem loadedRules_rowsOf (am : AssertionMap) (S s t : GoString) (hS : S ≠ [])
    (hk : (am.map Prod.fst).Nodup)
    (htype : ∀ e ∈ am, e.2.Policy ≠ [] → e.1.take 1 = S)
    (hrule : ∀ e ∈ am, ∀ rule ∈ e.2.Policy, rule.length ≤ 5 ∧ ∀ tok ∈ rule, tok ≠ []) :
    loadedRules (rowsOf am) s t =
      if s = S then ((GoMap.get? t am).map Assertion.Policy).getD [] else [] := by
  have hrow : ∀ row ∈ rowsOf am, row.PTYPE ≠ [] ∧ row.PTYPE.take 1 = S := by
    intro row hrow
    obtain ⟨e, he, rule, hr, rfl⟩ := rowsOf_mem am row hrow
    have hne : e.2.Policy ≠ [] := by
      intro h
      rw [h] at hr
      simp at hr
    have ht := htype e he hne
    rw [writeTableLine_PTYPE]
    refine ⟨?_, ht⟩
    intro h
    rw [h] at ht
    exact hS ht.symm
  unfold loadedRules
  by_cases hs : s = S
  · subst hs
    rw [if_pos rfl]
    have hcongr : (rowsOf am).filter
          (fun row => row.PTYPE ≠ [] ∧ row.PTYPE.take 1 = s ∧ row.PTYPE = t) =
        (rowsOf am).filter (fun row => row.PTYPE = t) := by
      apply List.filter_congr
      intro row hmem
      have := hrow row hmem
      simp [this.1, this.2]
    rw [hcongr, rowsOf_filter am t hk, List.map_map]
    cases hg : GoMap.get? t am with
    | none => rfl
    | some ast =>
      have hmem := GoMap.mem_of_get? t ast am hg
      simp only [Option.map_some', Option.getD_some]
      have hid : ∀ rule ∈ ast.Policy, (policy.tokens ∘ writeTableLine t) rule = id rule := by
        intro rule hr
        have := hrule (t, ast) hmem rule hr
        exact tokens_writeTableLine t rule this.1 this.2
      rw [List.map_congr_left hid, List.map_id]
  · rw [if_neg hs]
    rw [List.filter_eq_nil_iff.mpr]
    · rfl
    · intro row hmem
      have := hrow row hmem
      have hne : ¬ List.take 1 row.PTYPE = s := by
        rw [this.2]
        exact fun h => hs h.symm
      simp [hne]


/-! ## The contract -/

/-- C1 as stated fails: a rule of six tokens under section `p` comes back with five tokens,
and a rule with an empty token comes back without it, although the model loaded into has
the entry and no rules; loaded into a model without sections, the saved rule makes
`LoadPolicy` panic; so does a rule of a policy type `x` kept under section `p`, which is
looked for under section `x`. -/
theorem roundtrip_loses_tokens :
    (sampleAdapter.LoadPolicy quietReplies
        (sampleAdapter.SavePolicy quietReplies emptyStore
          (sampleModel [[ascii "a", ascii "b", ascii "c", ascii "d", ascii "e", ascii "f"]])).1
        (sampleModel [])).1.rules (ascii "p") (ascii "p") =
      [[ascii "a", ascii "b", ascii "c", ascii "d", ascii "e"]] ∧
    ¬ List.Perm [[ascii "a", ascii "b", ascii "c", ascii "d", ascii "e"]]
      ((sampleModel [[ascii "a", ascii "b", ascii "c", ascii "d", ascii "e", ascii "f"]]).rules
        (ascii "p") (ascii "p")) ∧
    (sampleAdapter.LoadPolicy quietReplies
        (sampleAdapter.SavePolicy quietReplies emptyStore
          (sampleModel [[ascii "a", [], ascii "c"]])).1
        (sampleModel [])).1.rules (ascii "p") (ascii "p") = [[ascii "a", ascii "c"]] ∧
    (sampleAdapter.LoadPolicy quietReplies
        (sampleAdapter.SavePolicy quietReplies emptyStore (sampleModel [[ascii "a"]])).1
        []).2 = Exit.panicked Panic.nilDereference ∧
    (sampleAdapter.LoadPolicy quietReplies
        (sampleAdapter.SavePolicy quietReplies emptyStore
          [(ascii "p", [(ascii "x", sampleAssertion (ascii "x") [[ascii "a"]])])]).1
        [(ascii "p", [(ascii "x", sampleAssertion (ascii "x") [])])]).2 =
      Exit.panicked Panic.nilDereference := by
  refine ⟨by decide, ?_, by decide, by decide, by decide⟩
  intro h
  have := List.Perm.eq_singleton h.symm
  revert this
  decide

/-- C1, amended. Save/Load round trip: let `m` be a model whose rules all lie under
sections `p` and `g`, whose policy types are pairwise distinct within a section, in which
every policy type holding a rule starts with the byte of its section and every rule has at
most five tokens, none of them empty; let `m2` be a model without rules that has an entry
for every policy type of `m` holding a rule.  When the store reports no error and scans in
insertion order, `SavePolicy(m)` followed by `LoadPolicy(m2)` returns no error and yields a
model whose rule list for every section and policy type equals the one of `m`, as a list
and hence as a multiset of token sequences. -/
theorem SavePolicy_LoadPolicy_roundtrip (a : adapter) (rep1 rep2 : Replies) (st : Store)
    (m m2 : Model) (h1 : rep1.noError) (h2 : rep2.noError)
    (hsec : ∀ kv ∈ m, kv.1 ≠ ascii "p" → kv.1 ≠ ascii "g" → ∀ e ∈ kv.2, e.2.Policy = [])
    (hkeys : ∀ kv ∈ m, (kv.2.map Prod.fst).Nodup)
    (htype : ∀ kv ∈ m, ∀ e ∈ kv.2, e.2.Policy ≠ [] → e.1.take 1 = kv.1)
    (hrule : ∀ kv ∈ m, ∀ e ∈ kv.2, ∀ rule ∈ e.2.Policy,
      rule.length ≤ 5 ∧ ∀ tok ∈ rule, tok ≠ [])
    (hempty : ∀ kv ∈ m2, ∀ e ∈ kv.2, e.2.Policy = [])
    (hentry : ∀ kv ∈ m, ∀ e ∈ kv.2, e.2.Policy ≠ [] → (m2.entry kv.1 e.1).isSome = true) :
    (a.LoadPolicy rep2 (a.SavePolicy rep1 st m).1 m2).2 = Exit.returned none ∧
    ∀ s t,
      (a.LoadPolicy rep2 (a.SavePolicy rep1 st m).1 m2).1.rules s t = m.rules s t ∧
      ((a.LoadPolicy rep2 (a.SavePolicy rep1 st m).1 m2).1.rules s t).Perm (m.rules s t) := by
  obtain ⟨hdb1, htb1, hdel1, hins1, _, _⟩ := h1
  obtain ⟨hdb2, htb2, _, _, hrun2, hstream2⟩ := h2
  -- the table after the save
  have hsave := adapter.SavePolicy_ok a rep1 st m hdb1 htb1 hdel1 hins1
  have hscan : (rep2.scan ((a.SavePolicy rep1 st m).1.rows a)).rows =
      rep1.stored 0 (rowsOf (m.sec (ascii "p")) ++ rowsOf (m.sec (ascii "g"))) := by
    rw [hsave]
    simp [Replies.scan, hstream2, Store.rows_put]
  -- facts about the two saved sections
  have hPne : ascii "p" ≠ [] := by decide
  have hGne : ascii "g" ≠ [] := by decide
  have hPG : ascii "p" ≠ ascii "g" := by decide
  have htypeS : ∀ S, ∀ e ∈ m.sec S, e.2.Policy ≠ [] → e.1.take 1 = S := by
    intro S e he hne
    obtain ⟨kv, hkv, hS, hmem⟩ := Model.mem_sec m S e he
    rw [← hS]
    exact htype kv hkv e hmem hne
  have hruleS : ∀ S, ∀ e ∈ m.sec S, ∀ rule ∈ e.2.Policy,
      rule.length ≤ 5 ∧ ∀ tok ∈ rule, tok ≠ [] := by
    intro S e he
    obtain ⟨kv, hkv, _, hmem⟩ := Model.mem_sec m S e he
    exact hrule kv hkv e hmem
  have hentryS : ∀ S, ∀ e ∈ m.sec S, e.2.Policy ≠ [] → (m2.entry S e.1).isSome = true := by
    intro S e he hne
    obtain ⟨kv, hkv, hS, hmem⟩ := Model.mem_sec m S e he
    rw [← hS]
    exact hentry kv hkv e hmem hne
  -- what the rows contribute to each entry
  have hloaded : ∀ s t,
      loadedRules (rep2.scan ((a.SavePolicy rep1 st m).1.rows a)).rows s t =
        (if s = ascii "p" then m.rules (ascii "p") t else []) ++
        (if s = ascii "g" then m.rules (ascii "g") t else []) := by
    intro s t
    rw [hscan, ← loadedRules_eraseID, Replies.stored_eraseID, List.map_append,
      rowsOf_eraseID, rowsOf_eraseID, loadedRules_append,
      loadedRules_rowsOf _ (ascii "p") s t hPne (Model.sec_nodup m _ hkeys)
        (htypeS _) (hruleS _),
      loadedRules_rowsOf _ (ascii "g") s t hGne (Model.sec_nodup m _ hkeys)
        (htypeS _) (hruleS _),
      Model.rules_eq, Model.rules_eq]
  -- every delivered row has its entry in `m2`
  have hrows : ∀ row ∈ (rep2.scan ((a.SavePolicy rep1 st m).1.rows a)).rows,
      row.PTYPE ≠ [] → (m2.entry (row.PTYPE.take 1) row.PTYPE).isSome = true := by
    intro row hrow _
    rw [hscan] at hrow
    have hmem : row.eraseID ∈
        rowsOf (m.sec (ascii "p")) ++ rowsOf (m.sec (ascii "g")) := by
      have := List.mem_map_of_mem policy.eraseID hrow
      rwa [Replies.stored_eraseID, List.map_append, rowsOf_eraseID, rowsOf_eraseID] at this
    have hfind : ∀ S, row.eraseID ∈ rowsOf (m.sec S) →
        (m2.entry (row.PTYPE.take 1) row.PTYPE).isSome = true := by
      intro S hS
      obtain ⟨e, he, rule, hr, heq⟩ := rowsOf_mem _ _ hS
      have hne : e.2.Policy ≠ [] := by
        intro h
        rw [h] at hr
        simp at hr
      have hpt : row.PTYPE = e.1 := by
        have := congrArg policy.PTYPE heq
        rwa [writeTableLine_PTYPE] at this
      rw [hpt, htypeS S e he hne]
      exact hentryS S e he hne
    rcases List.mem_append.mp hmem with h | h
    · exact hfind _ h
    · exact hfind _ h
  have hload : a.LoadPolicy rep2 (a.SavePolicy rep1 st m).1 m2 =
      loadRows (rep2.scan ((a.SavePolicy rep1 st m).1.rows a)).rows m2 := by
    simp [adapter.LoadPolicy, adapter.open_ok a rep2 hdb2 htb2, hrun2]
  obtain ⟨hexit, hent⟩ := loadRows_spec _ m2 hrows
  rw [← hload] at hexit hent
  refine ⟨hexit, fun s t => ?_⟩
  have heq : (a.LoadPolicy rep2 (a.SavePolicy rep1 st m).1 m2).1.rules s t = m.rules s t := by
    unfold Model.rules
    rw [hent s t, hloaded s t]
    cases he2 : m2.entry s t with
    | none =>
      simp only [Option.map_none']
      cases he : m.entry s t with
      | none => rfl
      | some ast =>
        simp only
        by_contra hne
        have hmem := GoMap.mem_of_get? t ast _ he
        have := hentryS s (t, ast) hmem (fun h => hne h.symm)
        rw [he2] at this
        simp at this
    | some ast2 =>
      have hmem2 := GoMap.mem_of_get? t ast2 _ he2
      obtain ⟨kv2, hkv2, _, hmem2'⟩ := Model.mem_sec m2 s (t, ast2) hmem2
      have hnil : ast2.Policy = [] := hempty kv2 hkv2 (t, ast2) hmem2'
      simp only [Option.map_some', hnil, List.nil_append]
      by_cases hp : s = ascii "p"
      · subst hp
        simp [hPG, Model.rules]
      · by_cases hg : s = ascii "g"
        · subst hg
          simp [hp, Model.rules]
        · simp only [hp, hg, if_false, List.append_nil]
          cases he : m.entry s t with
          | none => rfl
          | some ast =>
            have hmem := GoMap.mem_of_get? t ast _ he
            obtain ⟨kv, hkv, hs, hmem'⟩ := Model.mem_sec m s (t, ast) hmem
            exact (hsec kv hkv (hs ▸ hp) (hs ▸ hg) (t, ast) hmem').symm
  exact ⟨heq, heq ▸ List.Perm.refl _⟩

/-- Round trip of a concrete model: a model with two rules of type `p`
comes back with the same two rules. -/
theorem SavePolicy_LoadPolicy_roundtrip_witness :
    quietReplies.noError ∧
    ((sampleAdapter.LoadPolicy quietReplies
        (sampleAdapter.SavePolicy quietReplies (constStore [sampleRow 0 "x" "y" "z"])
          (sampleModel [[ascii "a", ascii "b"], [ascii "c"]])).1
        (sampleModel [])).1.rules (ascii "p") (ascii "p")).Perm
      [[ascii "a", ascii "b"], [ascii "c"]] :=
  ⟨⟨rfl, rfl, rfl, rfl, rfl, rfl⟩,
    ((SavePolicy_LoadPolicy_roundtrip sampleAdapter quietReplies quietReplies
      (constStore [sampleRow 0 "x" "y" "z"])
      (sampleModel [[ascii "a", ascii "b"], [ascii "c"]]) (sampleModel [])
      ⟨rfl, rfl, rfl, rfl, rfl, rfl⟩ ⟨rfl, rfl, rfl, rfl, rfl, rfl⟩
      (by decide) (by decide) (by decide) (by decide) (by decide) (by decide)).2
      (ascii "p") (ascii "p")).2⟩


/-- C2. Save has full-overwrite semantics: when the store reports no error, the table after
`SavePolicy` holds, up to the keys the store generates, exactly one row per rule of the
policy types of sections `p` and `g`, each built by `writeTableLine` from the policy type
and the rule, whatever the table held before; rules of other sections are not persisted;
and a further `SavePolicy` of a model without rules, whose delete succeeds, leaves the
table with zero rows. -/
theorem SavePolicy_overwrites (a : adapter) (rep : Replies) (st : Store) (model : Model)
    (hdb : rep.createDatabase = none) (htb : rep.createTable = none)
    (hdel : rep.delete = none) (hins : rep.insert = none) :
    (a.SavePolicy rep st model).2 = Exit.returned none ∧
    ((a.SavePolicy rep st model).1.rows a).map policy.eraseID =
      (model.sec (ascii "p")).flatMap (fun kv => kv.2.Policy.map (writeTableLine kv.1)) ++
      (model.sec (ascii "g")).flatMap (fun kv => kv.2.Policy.map (writeTableLine kv.1)) ∧
    (∀ row ∈ (a.SavePolicy rep st model).1.rows a,
      ∃ s, (s = ascii "p" ∨ s = ascii "g") ∧ ∃ kv ∈ model, kv.1 = s ∧
        ∃ e ∈ kv.2, ∃ rule ∈ e.2.Policy, row.eraseID = writeTableLine e.1 rule) ∧
    (∀ (rep2 : Replies) (model2 : Model),
      rep2.createDatabase = none → rep2.createTable = none → rep2.delete = none →
      (∀ kv ∈ model2, ∀ e ∈ kv.2, e.2.Policy = []) →
      (a.SavePolicy rep2 (a.SavePolicy rep st model).1 model2).1.rows a = []) := by
  have herase : ((a.SavePolicy rep st model).1.rows a).map policy.eraseID =
      rowsOf (model.sec (ascii "p")) ++ rowsOf (model.sec (ascii "g")) := by
    rw [adapter.SavePolicy_ok a rep st model hdb htb hdel hins]
    simp only [Store.rows_put]
    rw [Replies.stored_eraseID, List.map_append, rowsOf_eraseID, rowsOf_eraseID]
  refine ⟨?_, herase, ?_, ?_⟩
  · rw [adapter.SavePolicy_ok a rep st model hdb htb hdel hins]
  · intro row hrow
    have hmem : row.eraseID ∈ rowsOf (model.sec (ascii "p")) ++ rowsOf (model.sec (ascii "g")) := by
      rw [← herase]
      exact List.mem_map.mpr ⟨row, hrow, rfl⟩
    rcases List.mem_append.mp hmem with h | h
    · obtain ⟨e, he, rule, hrule, heq⟩ := rowsOf_mem _ _ h
      obtain ⟨kv, hkv, hs, hmem'⟩ := Model.mem_sec model _ e he
      exact ⟨ascii "p", Or.inl rfl, kv, hkv, hs, e, hmem', rule, hrule, heq⟩
    · obtain ⟨e, he, rule, hrule, heq⟩ := rowsOf_mem _ _ h
      obtain ⟨kv, hkv, hs, hmem'⟩ := Model.mem_sec model _ e he
      exact ⟨ascii "g", Or.inr rfl, kv, hkv, hs, e, hmem', rule, hrule, heq⟩
  · intro rep2 model2 hdb2 htb2 hdel2 hempty
    unfold adapter.SavePolicy
    rw [adapter.open_ok a rep2 hdb2 htb2]
    simp only [adapter.dropTable, hdel2, SavePolicy.collect_eq,
      rowsOf_sec_eq_nil model2 _ hempty, List.append_nil]
    cases rep2.insert <;> simp [Store.rows_put, Replies.stored]

/-- Saving over a concrete table: saving a model with one rule over a table that held
two other rows leaves one row, the one built from the rule. -/
theorem SavePolicy_overwrites_witness :
    quietReplies.createDatabase = none ∧ quietReplies.createTable = none ∧
    quietReplies.delete = none ∧ quietReplies.insert = none ∧
    ((sampleAdapter.SavePolicy quietReplies
        (constStore [sampleRow 0 "a" "b" "", sampleRow 1 "c" "" "d"])
        (sampleModel [[ascii "x", ascii "y"]])).1.rows sampleAdapter).map policy.eraseID =
      [writeTableLine (ascii "p") [ascii "x", ascii "y"]] :=
  ⟨rfl, rfl, rfl, rfl,
    ((SavePolicy_overwrites sampleAdapter quietReplies
      (constStore [sampleRow 0 "a" "b" "", sampleRow 1 "c" "" "d"])
      (sampleModel [[ascii "x", ascii "y"]]) rfl rfl rfl rfl).2.1).trans (by decide)⟩


/-- C3. Load materialises rows in store order: when ensure-exists and the start of the scan
succeed and the model has an entry for the (section, type) of every delivered row of
non-empty type, `LoadPolicy` returns no error and every entry of the model keeps its prior
rule list followed by, in store order, the token list (non-empty fields in field order) of
each delivered row of that type, the section being the first byte of the type; rows of
empty type contribute nothing and entries that no row names are unchanged. -/
theorem LoadPolicy_materialises (a : adapter) (rep : Replies) (st : Store) (model : Model)
    (hdb : rep.createDatabase = none) (htb : rep.createTable = none) (hrun : rep.run = none)
    (hentry : ∀ row ∈ (rep.scan (st.rows a)).rows, row.PTYPE ≠ [] →
      (model.entry (row.PTYPE.take 1) row.PTYPE).isSome = true) :
    (a.LoadPolicy rep st model).2 = Exit.returned none ∧
    (∀ s t, (a.LoadPolicy rep st model).1.entry s t =
      (model.entry s t).map (fun ast =>
        { ast with Policy := ast.Policy ++ loadedRules (rep.scan (st.rows a)).rows s t })) ∧
    (∀ s t, (∀ row ∈ (rep.scan (st.rows a)).rows, row.PTYPE ≠ t) →
      (a.LoadPolicy rep st model).1.entry s t = model.entry s t) ∧
    (∀ s t, ∀ tokens ∈ (a.LoadPolicy rep st model).1.rules s t,
      tokens ∈ model.rules s t ∨
        ∃ row ∈ (rep.scan (st.rows a)).rows, row.PTYPE ≠ [] ∧ tokens = row.tokens) := by
  have hload : a.LoadPolicy rep st model = loadRows (rep.scan (st.rows a)).rows model := by
    simp [adapter.LoadPolicy, adapter.open_ok a rep hdb htb, hrun]
  obtain ⟨h1, h2⟩ := loadRows_spec (rep.scan (st.rows a)).rows model hentry
  rw [hload]
  refine ⟨h1, h2, ?_, ?_⟩
  · intro s t hnone
    rw [h2 s t]
    have hnil : loadedRules (rep.scan (st.rows a)).rows s t = [] := by
      unfold loadedRules
      rw [List.filter_eq_nil_iff.mpr]
      · rfl
      · intro row hrow
        simp [hnone row hrow]
    rw [hnil]
    cases model.entry s t <;> simp
  · intro s t tokens htok
    unfold Model.rules at htok ⊢
    rw [h2 s t] at htok
    cases he : model.entry s t with
    | none => simp [he] at htok
    | some ast =>
      simp only [he, Option.map_some', List.mem_append] at htok ⊢
      rcases htok with h | h
      · exact Or.inl h
      · right
        unfold loadedRules at h
        obtain ⟨row, hrow, rfl⟩ := List.mem_map.mp h
        have hf := List.mem_filter.mp hrow
        refine ⟨row, hf.1, ?_, rfl⟩
        have := hf.2
        simp at this
        exact this.1

/-- Loading a concrete table: two stored rows of type `p` are appended, in
store order, to the rules of `p`. -/
theorem LoadPolicy_materialises_witness :
    quietReplies.createDatabase = none ∧ quietReplies.createTable = none ∧
    quietReplies.run = none ∧
    (sampleAdapter.LoadPolicy quietReplies
        (constStore [sampleRow 0 "a" "b" "", sampleRow 1 "c" "" "d"])
        (sampleModel [[ascii "x"]])).1.entry (ascii "p") (ascii "p") =
      some (sampleAssertion (ascii "p")
        [[ascii "x"], [ascii "a", ascii "b"], [ascii "c", ascii "d"]]) :=
  ⟨rfl, rfl, rfl,
    ((LoadPolicy_materialises sampleAdapter quietReplies
      (constStore [sampleRow 0 "a" "b" "", sampleRow 1 "c" "" "d"])
      (sampleModel [[ascii "x"]]) rfl rfl rfl (by decide)).2.1 (ascii "p") (ascii "p")).trans
      (by decide)⟩

/-- C4. RemoveRule deletes exactly the exact matches: when the delete query succeeds,
`RemovePolicy` with policy type `t` and fields `f` returns no error and deletes the rows
that agree, in type and in all five fields, with the row `writeTableLine` builds from
`(t, f)` (so a field not given in `f` must be empty in the stored row) and keeps every other
row; hence adding `(t, f)` and then removing `(t, f)` leaves no matching row, while removing
a rule `(t, g)` that builds a different row leaves the added row in the table. -/
theorem RemovePolicy_exact (a : adapter) (rep : Replies) (st : Store)
    (sec t : GoString) (f : List GoString) (hdel : rep.delete = none) :
    (a.RemovePolicy rep st sec t f).2 = Exit.returned none ∧
    (a.RemovePolicy rep st sec t f).1.rows a =
      (st.rows a).filter (fun row => row.eraseID ≠ writeTableLine t f) ∧
    (∀ row : policy, row.eraseID = writeTableLine t f ↔
      (row.PTYPE = t ∧ ∀ i : Nat, i < 5 → row.field i = f.getD i [])) ∧
    (∀ (rep1 : Replies) (g : List GoString), rep1.insert = none →
      (∀ row ∈ (a.RemovePolicy rep (a.AddPolicy rep1 st sec t f).1 sec t f).1.rows a,
        row.eraseID ≠ writeTableLine t f) ∧
      (writeTableLine t g ≠ writeTableLine t f →
        { writeTableLine t f with ID := rep1.newId (st.rows a).length } ∈
          (a.RemovePolicy rep (a.AddPolicy rep1 st sec t f).1 sec t g).1.rows a)) := by
  have hrows : ∀ (st' : Store) (g : List GoString),
      (a.RemovePolicy rep st' sec t g).1.rows a =
        (st'.rows a).filter (fun row => row.eraseID ≠ writeTableLine t g) := by
    intro st' g
    simp only [adapter.RemovePolicy, hdel, Store.rows_put, filterMatches_writeTableLine]
    congr 1
    funext row
    simp
  refine ⟨?_, hrows st f, eraseID_eq_writeTableLine_iff t f, ?_⟩
  · simp [adapter.RemovePolicy, hdel]
  · intro rep1 g hins
    constructor
    · intro row hrow
      rw [hrows] at hrow
      have := (List.mem_filter.mp hrow).2
      simpa using this
    · intro hne
      rw [hrows]
      apply List.mem_filter.mpr
      constructor
      · simp only [adapter.AddPolicy, hins, Store.rows_put, Replies.stored]
        rw [writeTableLine_eq]
        simp
      · have : policy.eraseID { writeTableLine t f with ID := rep1.newId (st.rows a).length } =
            writeTableLine t f := by
          rw [writeTableLine_eq]
          rfl
        simp only [this]
        simpa using fun h => hne h.symm

/-- Removing from a concrete table: after `AddPolicy("p","p",["a","b"])`, removing
`["a","b"]` empties the table and removing `["a","c"]` leaves the stored row. -/
theorem RemovePolicy_exact_witness :
    quietReplies.delete = none ∧ quietReplies.insert = none ∧
    (sampleAdapter.RemovePolicy quietReplies
      (sampleAdapter.AddPolicy quietReplies emptyStore (ascii "p") (ascii "p")
        [ascii "a", ascii "b"]).1
      (ascii "p") (ascii "p") [ascii "a", ascii "b"]).1.rows sampleAdapter = [] ∧
    sampleRow 0 "a" "b" "" ∈
      (sampleAdapter.RemovePolicy quietReplies
        (sampleAdapter.AddPolicy quietReplies emptyStore (ascii "p") (ascii "p")
          [ascii "a", ascii "b"]).1
        (ascii "p") (ascii "p") [ascii "a", ascii "c"]).1.rows sampleAdapter :=
  ⟨rfl, rfl,
    ((RemovePolicy_exact sampleAdapter quietReplies
      (sampleAdapter.AddPolicy quietReplies emptyStore (ascii "p") (ascii "p")
        [ascii "a", ascii "b"]).1
      (ascii "p") (ascii "p") [ascii "a", ascii "b"] rfl).2.1).trans (by decide),
    ((RemovePolicy_exact sampleAdapter quietReplies emptyStore
      (ascii "p") (ascii "p") [ascii "a", ascii "b"] rfl).2.2.2 quietReplies
      [ascii "a", ascii "c"] rfl).2 (by decide)⟩

/-- C5. On a table holding the row of type `p` with fields `a`, `b`, `c`,
`RemoveFilteredPolicy` with `fieldIndex = 1` and `fieldValues = ["b"]` returns no error and
deletes nothing, although the row satisfies the window filter (its second field is `b`):
the selector also demands that the fields outside the window be empty.  A row whose other
fields are empty is deleted. -/
theorem RemoveFilteredPolicy_window_example :
    windowMatches (ascii "p") 1 [ascii "b"] (sampleRow 7 "a" "b" "c") = true ∧
    (sampleAdapter.RemoveFilteredPolicy quietReplies
        (constStore [sampleRow 7 "a" "b" "c", sampleRow 8 "" "b" ""])
        (ascii "p") (ascii "p") 1 [ascii "b"]).2 = Exit.returned none ∧
    (sampleAdapter.RemoveFilteredPolicy quietReplies
        (constStore [sampleRow 7 "a" "b" "c", sampleRow 8 "" "b" ""])
        (ascii "p") (ascii "p") 1 [ascii "b"]).1.rows sampleAdapter =
      [sampleRow 7 "a" "b" "c"] := by
  decide

/-- C6. Row building and field truncation: the row `writeTableLine` builds from policy type
`t` and field list `f` (the row `AddPolicy` inserts) has type `t`, carries `f[i]` in the
field at every position `i < min(len f, 5)` and the empty string in every field at a
position `≥ len f`; tokens from index 5 on are dropped, so two field lists that agree on
their first five tokens build the same row; `AddPolicy` appends exactly that row, under a
key chosen by the store, to the table. -/
theorem writeTableLine_fields (t : GoString) (f : List GoString) :
    (writeTableLine t f).PTYPE = t ∧
    (∀ (i : Nat) (h : i < f.length), i < 5 → (writeTableLine t f).field i = f.get ⟨i, h⟩) ∧
    (∀ i : Nat, f.length ≤ i → (writeTableLine t f).field i = []) ∧
    writeTableLine t (f.take 5) = writeTableLine t f ∧
    (∀ g : List GoString, g.take 5 = f.take 5 → writeTableLine t g = writeTableLine t f) ∧
    (∀ (a : adapter) (rep : Replies) (st : Store) (sec : GoString), rep.insert = none →
      (a.AddPolicy rep st sec t f).2 = Exit.returned none ∧
      (a.AddPolicy rep st sec t f).1.rows a =
        st.rows a ++ [{ writeTableLine t f with ID := rep.newId (st.rows a).length }]) := by
  have htake : ∀ g : List GoString, writeTableLine t (g.take 5) = writeTableLine t g := by
    intro g
    rw [writeTableLine_eq, writeTableLine_eq]
    simp only [getD_take_five g _ (by decide : 0 < 5), getD_take_five g _ (by decide : 1 < 5),
      getD_take_five g _ (by decide : 2 < 5), getD_take_five g _ (by decide : 3 < 5),
      getD_take_five g _ (by decide : 4 < 5)]
  refine ⟨writeTableLine_PTYPE t f, ?_, ?_, htake f, ?_, ?_⟩
  · intro i h h5
    rw [writeTableLine_eq]
    have hget : f.getD i [] = f.get ⟨i, h⟩ := by
      simp [List.getD, List.getElem?_eq_getElem h]
    rw [← hget]
    match i, h5 with
    | 0, _ => rfl
    | 1, _ => rfl
    | 2, _ => rfl
    | 3, _ => rfl
    | 4, _ => rfl
  · intro i h
    rw [writeTableLine_eq]
    have hget : ∀ j : Nat, i ≤ j → f.getD j [] = [] := by
      intro j hj
      simp [List.getD, List.getElem?_eq_none (show f.length ≤ j by omega)]
    match i, hget with
    | 0, hget => exact hget 0 (le_refl _)
    | 1, hget => exact hget 1 (le_refl _)
    | 2, hget => exact hget 2 (le_refl _)
    | 3, hget => exact hget 3 (le_refl _)
    | 4, hget => exact hget 4 (le_refl _)
    | _ + 5, _ => rfl
  · intro g hg
    rw [← htake g, hg, htake f]
  · intro a rep st sec hins
    simp only [adapter.AddPolicy, hins, Store.rows_put, Replies.stored]
    rw [writeTableLine_eq]
    simp

/-- Row building on a concrete rule: a rule of six tokens keeps its fifth token in the
last field, and is stored like the rule of its first five tokens. -/
theorem writeTableLine_fields_witness :
    4 < [ascii "a", ascii "b", ascii "c", ascii "d", ascii "e", ascii "f"].length ∧ 4 < 5 ∧
    (writeTableLine (ascii "p")
      [ascii "a", ascii "b", ascii "c", ascii "d", ascii "e", ascii "f"]).field 4 = ascii "e" ∧
    writeTableLine (ascii "p") [ascii "a", ascii "b", ascii "c", ascii "d", ascii "e"] =
      writeTableLine (ascii "p")
        [ascii "a", ascii "b", ascii "c", ascii "d", ascii "e", ascii "f"] :=
  ⟨by decide, by decide,
    (writeTableLine_fields (ascii "p")
      [ascii "a", ascii "b", ascii "c", ascii "d", ascii "e", ascii "f"]).2.1 4
      (by decide) (by decide),
    (writeTableLine_fields (ascii "p")
      [ascii "a", ascii "b", ascii "c", ascii "d", ascii "e", ascii "f"]).2.2.2.2.1
      [ascii "a", ascii "b", ascii "c", ascii "d", ascii "e"] (by decide)⟩

/-- C7. When the row stream breaks with an error after delivering one of two rows,
`LoadPolicy` loads the delivered row and returns no error: the error of the stream is
never asked for. -/
theorem LoadPolicy_stream_error_example :
    ({ quietReplies with stream := some (1, ascii "EOF") }.scan
      [sampleRow 0 "a" "b" "", sampleRow 1 "c" "" "d"]).err = some (ascii "EOF") ∧
    sampleAdapter.LoadPolicy { quietReplies with stream := some (1, ascii "EOF") }
        (constStore [sampleRow 0 "a" "b" "", sampleRow 1 "c" "" "d"]) (sampleModel []) =
      (sampleModel [[ascii "a", ascii "b"]], Exit.returned none) := by
  decide

/-- C8 as stated fails: when the full-table delete fails with an error, `SavePolicy` panics
with it instead of returning it; and when the ensure-exists step fails while delete and
insert would succeed, `SavePolicy` panics instead of returning no error. -/
theorem SavePolicy_delete_error_panics :
    (sampleAdapter.SavePolicy { quietReplies with delete := some (ascii "down") }
        emptyStore (sampleModel [])).2 = Exit.panicked (Panic.error (ascii "down")) ∧
    (sampleAdapter.SavePolicy { quietReplies with delete := some (ascii "down") }
        emptyStore (sampleModel [])).2 ≠ Exit.returned (some (ascii "down")) ∧
    (sampleAdapter.SavePolicy { quietReplies with createTable := some (ascii "down") }
        emptyStore (sampleModel [])).2 ≠ Exit.returned none := by
  decide

/-- C8, amended. When the ensure-exists step succeeds: if the full-table delete fails with
error `e`, `SavePolicy` panics with `e`; otherwise, if the batch insert fails with error
`e`, `SavePolicy` returns `e`; otherwise it returns no error. -/
theorem SavePolicy_exit (a : adapter) (rep : Replies) (st : Store) (model : Model)
    (hdb : rep.createDatabase = none) (htb : rep.createTable = none) :
    (∀ e, rep.delete = some e →
      (a.SavePolicy rep st model).2 = Exit.panicked (Panic.error e)) ∧
    (∀ e, rep.delete = none → rep.insert = some e →
      (a.SavePolicy rep st model).2 = Exit.returned (some e)) ∧
    (rep.delete = none → rep.insert = none →
      (a.SavePolicy rep st model).2 = Exit.returned none) := by
  unfold adapter.SavePolicy
  rw [adapter.open_ok a rep hdb htb]
  refine ⟨?_, ?_, ?_⟩
  · intro e hdel
    simp [adapter.dropTable, hdel]
  · intro e hdel hins
    simp [adapter.dropTable, hdel, hins]
  · intro hdel hins
    simp [adapter.dropTable, hdel, hins]

/-- Saving against a failing store: a failing insert is returned, a failing delete panics. -/
theorem SavePolicy_exit_witness :
    quietReplies.createDatabase = none ∧ quietReplies.createTable = none ∧
    (sampleAdapter.SavePolicy { quietReplies with insert := some (ascii "down") }
        emptyStore (sampleModel [[ascii "a"]])).2 = Exit.returned (some (ascii "down")) ∧
    (sampleAdapter.SavePolicy { quietReplies with delete := some (ascii "down") }
        emptyStore (sampleModel [[ascii "a"]])).2 = Exit.panicked (Panic.error (ascii "down")) :=
  ⟨rfl, rfl,
    (SavePolicy_exit sampleAdapter { quietReplies with insert := some (ascii "down") }
      emptyStore (sampleModel [[ascii "a"]]) rfl rfl).2.1 (ascii "down") rfl rfl,
    (SavePolicy_exit sampleAdapter { quietReplies with delete := some (ascii "down") }
      emptyStore (sampleModel [[ascii "a"]]) rfl rfl).1 (ascii "down") rfl⟩


/-- C9 as stated fails: `LoadPolicy` on a model without sections panics with a nil
dereference as soon as the table holds a row of non-empty type. -/
theorem empty_model_load_panics :
    sampleAdapter.LoadPolicy quietReplies (constStore [sampleRow 0 "a" "b" ""]) [] =
      ([], Exit.panicked Panic.nilDereference) := by
  decide

/-- C9, amended. When ensure-exists and the start of the scan succeed, `LoadPolicy` on a
model without sections returns no error if every delivered row has an empty type, and
panics with a nil dereference (the entry `model[section][type]` is missing) if some
delivered row has a non-empty type; the model stays empty in both cases. -/
theorem LoadPolicy_empty_model (a : adapter) (rep : Replies) (st : Store)
    (hdb : rep.createDatabase = none) (htb : rep.createTable = none) (hrun : rep.run = none) :
    ((∀ row ∈ (rep.scan (st.rows a)).rows, row.PTYPE = []) →
      a.LoadPolicy rep st [] = ([], Exit.returned none)) ∧
    ((∃ row ∈ (rep.scan (st.rows a)).rows, row.PTYPE ≠ []) →
      a.LoadPolicy rep st [] = ([], Exit.panicked Panic.nilDereference)) := by
  have hload : a.LoadPolicy rep st [] = loadRows (rep.scan (st.rows a)).rows [] := by
    simp [adapter.LoadPolicy, adapter.open_ok a rep hdb htb, hrun]
  rw [hload]
  exact loadRows_nil_model _

/-- Loading a blank row: a table of one blank row loads into the model
without sections. -/
theorem LoadPolicy_empty_model_witness :
    quietReplies.createDatabase = none ∧ quietReplies.createTable = none ∧
    quietReplies.run = none ∧
    sampleAdapter.LoadPolicy quietReplies
        (constStore [{ sampleRow 0 "a" "b" "" with PTYPE := [] }]) [] =
      ([], Exit.returned none) :=
  ⟨rfl, rfl, rfl,
    (LoadPolicy_empty_model sampleAdapter quietReplies
      (constStore [{ sampleRow 0 "a" "b" "" with PTYPE := [] }]) rfl rfl rfl).1 (by decide)⟩

/-- C10. `GetTableName` on the adapter built for database `db` and table `tbl` returns
`db`, the database name, not the table name; it still does after `SetTableName`. -/
theorem GetTableName_returns_database :
    NewAdapter quietReplies 0 (ascii "db") (ascii "tbl") = Except.ok sampleAdapter ∧
    sampleAdapter.GetTableName = ascii "db" ∧
    sampleAdapter.GetTableName ≠ ascii "tbl" ∧
    (sampleAdapter.SetTableName (ascii "rules")).GetTableName = ascii "db" ∧
    (sampleAdapter.SetTableName (ascii "rules")).GetTableName ≠ ascii "rules" ∧
    (sampleAdapter.SetTableName (ascii "rules")).GetDatabaseName = ascii "db" :=
  ⟨rfl, by decide, by decide, by decide, by decide, by decide⟩

end RethinkAdapter
